import Mathlib

/-!
# Verification of the voice-subtitle-generator subtitle engine

Shallow embedding of the subtitle correction and alignment engine of the
`voice-subtitle-generator` repository, covering:

* `modules/srt_generator.py` — the timecode codec (`time_to_ms`, `ms_to_time`),
  the regex-based SRT parser (`parse_srt`), and the proportional timestamp
  corrector (`correct_timestamps_proportionally`);
* `modules/subtitle_corrector.py` — the structural validator (`validate_srt`)
  and the batched correction driver (`correct_subtitles`).

Python `float` values are IEEE-754 binary64.  Wherever the source performs
float arithmetic we model each operation exactly: a float is represented by
the rational number it denotes, and every elementary operation first computes
the exact rational result and then rounds it to 53 significant bits with
round-to-nearest, ties-to-even (`dblRound`).  Overflow and subnormals are
irrelevant in the magnitude range exercised here (values below `2^40`), so
the model omits them.  Python `int(x)` on a float truncates toward zero
(`pyTrunc`).
-/

set_option linter.unusedVariables false
set_option maxRecDepth 100000

namespace VSG

/-! ## IEEE-754 binary64 rounding model -/

/-- `2^e` as a rational, for an integer exponent. -/
def pow2 (e : ℤ) : ℚ :=
  if 0 ≤ e then ((2 ^ e.toNat : ℕ) : ℚ) else 1 / ((2 ^ (-e).toNat : ℕ) : ℚ)

/-- Largest exponent `e` in `[-100, 100]` with `2^e ≤ q` (for `q > 0` in the
range of interest; out-of-range inputs fall back to `-100`). -/
def expOf (q : ℚ) : ℤ :=
  (((List.range 201).map (fun k => (100 - k : ℤ))).find? (fun e => pow2 e ≤ q)).getD (-100)

/-- Floor of a rational as an integer (computable, kernel-reducible). -/
def ratFloor (q : ℚ) : ℤ := Int.fdiv q.num (q.den : ℤ)

/-- Round a nonnegative rational to the nearest multiple of `2^(e-52)` where
`e = expOf q`, ties to even: round-to-nearest binary64 for normal doubles. -/
def dblRoundPos (q : ℚ) : ℚ :=
  let e := expOf q
  let u := pow2 (e - 52)
  let f := q / u
  let n : ℤ := ratFloor f
  let r : ℚ := f - (n : ℚ)
  let m : ℤ :=
    if r < 1 / 2 then n
    else if 1 / 2 < r then n + 1
    else if n % 2 = 0 then n else n + 1
  (m : ℚ) * u

/-- Round an arbitrary rational to the nearest binary64 value (ties to even). -/
def dblRound (q : ℚ) : ℚ :=
  if q < 0 then -dblRoundPos (-q) else dblRoundPos q

/-- Python float addition: exact sum, then one binary64 rounding. -/
def pyAdd (a b : ℚ) : ℚ := dblRound (a + b)

/-- Python float multiplication: exact product, then one binary64 rounding. -/
def pyMul (a b : ℚ) : ℚ := dblRound (a * b)

/-- Python float division: exact quotient, then one binary64 rounding. -/
def pyDiv (a b : ℚ) : ℚ := dblRound (a / b)

/-- Python `int()` applied to a float: truncation toward zero. -/
def pyTrunc (q : ℚ) : ℤ := Int.tdiv q.num (q.den : ℤ)

/-! ## Characters and digits -/

/-- ASCII decimal digit test (model of `\d` in the source's regexes). -/
def isDig (c : Char) : Bool := '0' ≤ c && c ≤ '9'

/-- Value of an ASCII digit character. -/
def digVal (c : Char) : ℕ := c.toNat - 48

/-- Digit character for a value `< 10`. -/
def digChar (d : ℕ) : Char :=
  match d with
  | 0 => '0' | 1 => '1' | 2 => '2' | 3 => '3' | 4 => '4'
  | 5 => '5' | 6 => '6' | 7 => '7' | 8 => '8' | _ => '9'

/-- Numeric value of a digit string (most significant first). -/
def digitsVal (l : List Char) : ℕ :=
  l.foldl (fun acc c => 10 * acc + digVal c) 0

/-- Python whitespace characters relevant to `str.strip()` here. -/
def isSpaceChar (c : Char) : Bool :=
  c = ' ' || c = '\t' || c = '\n' || c = '\r' || c = '\x0b' || c = '\x0c'

/-- Model of Python `str.strip()`: drop whitespace at both ends. -/
def stripChars (l : List Char) : List Char :=
  (l.dropWhile isSpaceChar).reverse.dropWhile isSpaceChar |>.reverse

def pyStrip (s : String) : String := String.mk (stripChars s.data)

/-! ## Timecode codec (`srt_generator.py`)

`ms_to_time` works on Python ints only (exact); `time_to_ms` goes through
`float(...)` and is modelled with the binary64 semantics above. -/

/-- Two-digit zero-padded decimal rendering (`f"{n:02d}"` for `n < 100`). -/
def pad2 (n : ℕ) : List Char := [digChar (n / 10), digChar (n % 10)]

/-- Three-digit zero-padded decimal rendering (`f"{n:03d}"` for `n < 1000`). -/
def pad3 (n : ℕ) : List Char := [digChar (n / 100), digChar (n / 10 % 10), digChar (n % 10)]

/-- `SRTGenerator.ms_to_time`: successive `divmod` by 1000, 60, 60, then
zero-padded formatting `HH:MM:SS,mmm`. -/
def ms_to_time (ms : ℕ) : String :=
  let s := ms / 1000
  let msr := ms % 1000
  let m := s / 60
  let sr := s % 60
  let h := m / 60
  let mr := m % 60
  String.mk (pad2 h ++ [':'] ++ pad2 mr ++ [':'] ++ pad2 sr ++ [','] ++ pad3 msr)

/-- Python `int(s)` on a pure digit string (the only shape reaching it here). -/
def pyIntOfDigits (l : List Char) : Option ℕ :=
  if l ≠ [] && l.all isDig then some (digitsVal l) else none

/-- Python `float(s)` for strings of shape `digits` or `digits.digits`,
as a correctly rounded binary64 value. -/
def pyFloatOfChars (l : List Char) : Option ℚ :=
  match l.splitOn '.' with
  | [d] => (pyIntOfDigits d).map (fun n => dblRound (n : ℚ))
  | [d, f] =>
      if d ≠ [] && d.all isDig && f ≠ [] && f.all isDig then
        some (dblRound ((digitsVal d : ℚ) + (digitsVal f : ℚ) / ((10 ^ f.length : ℕ) : ℚ)))
      else none
  | _ => none

/-- `SRTGenerator.time_to_ms`: `time_str.replace(',', '.').split(':')` must
give exactly three fields; then `int(h)*3600 + int(m)*60 + float(s)` (the two
int products are exact Python ints; adding the float rounds once), times 1000
(one more rounding), truncated by `int()`. -/
def time_to_ms (t : String) : Option ℤ :=
  match (t.data.map (fun c => if c = ',' then '.' else c)).splitOn ':' with
  | [h, m, s] => do
      let hv ← pyIntOfDigits h
      let mv ← pyIntOfDigits m
      let sv ← pyFloatOfChars s
      let total := pyAdd ((hv * 3600 + mv * 60 : ℕ) : ℚ) sv
      pure (pyTrunc (pyMul total 1000))
  | _ => none

/-! ## SRT parser (`SRTGenerator.parse_srt`)

The source extracts entries with
`re.findall(r'(\d+)\n(\d{2}:\d{2}:\d{2},\d{3}) --> (\d{2}:\d{2}:\d{2},\d{3})\n((?:.+\n)+)', ...)`:
a left-to-right scan for non-overlapping matches, skipping characters that
start no match.  `.` does not match a newline, so `(?:.+\n)+` greedily takes
the maximal run of nonempty newline-terminated lines.  `re.MULTILINE` only
affects `^`/`$`, which the pattern does not use.  `\d` is modelled as an
ASCII digit (full-width Unicode digits never occur in this pipeline). -/

structure GenEntry where
  index : ℕ
  start_time : String
  end_time : String
  text : String
deriving Repr, DecidableEq

/-- Match `\d{2}:\d{2}:\d{2},\d{3}` at the head; return the 12 matched
characters and the remainder. -/
def matchTS : List Char → Option (List Char × List Char)
  | c1 :: c2 :: ':' :: c3 :: c4 :: ':' :: c5 :: c6 :: ',' :: c7 :: c8 :: c9 :: rest =>
      if [c1, c2, c3, c4, c5, c6, c7, c8, c9].all isDig then
        some ([c1, c2, ':', c3, c4, ':', c5, c6, ',', c7, c8, c9], rest)
      else none
  | _ => none

/-- Drop a literal prefix, or fail. -/
def expectLit (pat l : List Char) : Option (List Char) :=
  if pat.isPrefixOf l then some (l.drop pat.length) else none

/-- Greedy `(?:.+\n)+` at the head: the maximal run of nonempty
newline-terminated lines (text of the run, remainder).  Fuel-driven so that
it reduces in the kernel; each step consumes at least one character, so
`length + 1` fuel is always enough. -/
def takeTextLinesGo : ℕ → List Char → List Char × List Char
  | 0, l => ([], l)
  | fuel + 1, l =>
      let line := l.takeWhile (fun c => c ≠ '\n')
      if line = [] then ([], l)
      else
        match l.drop line.length with
        | '\n' :: rest =>
            let (more, r) := takeTextLinesGo fuel rest
            (line ++ '\n' :: more, r)
        | _ => ([], l)

def takeTextLines (l : List Char) : List Char × List Char :=
  takeTextLinesGo (l.length + 1) l

/-- Match the whole block pattern at the head of `l`; on success return the
entry and the remainder after the match. -/
def matchBlock (l : List Char) : Option (GenEntry × List Char) := do
  let ds := l.takeWhile isDig
  if ds = [] then none else
  let r1 := l.drop ds.length
  match r1 with
  | '\n' :: r2 => do
      let (ts1, r3) ← matchTS r2
      let r4 ← expectLit " --> ".data r3
      let (ts2, r5) ← matchTS r4
      match r5 with
      | '\n' :: r6 =>
          let (block, r7) := takeTextLines r6
          if block = [] then none
          else
            some ({ index := digitsVal ds, start_time := String.mk ts1,
                    end_time := String.mk ts2,
                    text := String.mk (stripChars block) }, r7)
      | _ => none
  | _ => none

/-- `re.findall` scan: try to match at each position, left to right,
non-overlapping.  Fuel-driven (one unit per scan step); `textLen + 1` fuel
always suffices since a match consumes at least one character. -/
def scanBlocks : ℕ → List Char → List GenEntry
  | 0, _ => []
  | _ + 1, [] => []
  | fuel + 1, l@(_ :: rest) =>
      match matchBlock l with
      | some (e, r) => e :: scanBlocks fuel r
      | none => scanBlocks fuel rest

/-- `SRTGenerator.parse_srt`. -/
def parse_srt (srt_content : String) : List GenEntry :=
  scanBlocks (srt_content.data.length + 1) srt_content.data

/-- Decimal rendering of a natural number (Python `str(int)`), fuel-driven. -/
def natReprGo : ℕ → ℕ → List Char → List Char
  | 0, _, acc => acc
  | fuel + 1, n, acc =>
      if n < 10 then digChar n :: acc
      else natReprGo fuel (n / 10) (digChar (n % 10) :: acc)

def natRepr (n : ℕ) : List Char := natReprGo 30 n []

/-- One serialized SRT block, `f"{index}\n{start} --> {end}\n{text}\n\n"`. -/
def srtBlock (e : GenEntry) : String :=
  String.mk (natRepr e.index) ++ "\n" ++ e.start_time ++ " --> " ++ e.end_time ++ "\n"
    ++ e.text ++ "\n\n"

/-- Serialization of an entry list by concatenated blocks, as in the loop at
the end of `correct_timestamps_proportionally`. -/
def buildSrt (entries : List GenEntry) : String :=
  entries.foldl (fun acc e => acc ++ srtBlock e) ""

/-! ## Proportional timestamp corrector
(`SRTGenerator.correct_timestamps_proportionally`) -/

/-- Python runtime exceptions that can escape the modelled code. -/
inductive PyErr where
  | zeroDivisionError
  | valueError
deriving Repr, DecidableEq

instance {ε α : Type} [DecidableEq ε] [DecidableEq α] : DecidableEq (Except ε α) := fun x y =>
  match x, y with
  | .ok a, .ok b => decidable_of_iff (a = b) (by simp)
  | .error a, .error b => decidable_of_iff (a = b) (by simp)
  | .ok _, .error _ => isFalse (fun h => by cases h)
  | .error _, .ok _ => isFalse (fun h => by cases h)

/-- Lift `Option` into `Except PyErr` (a `None`-shaped parse result that the
source would crash on is modelled as `ValueError`). -/
def orValueError {α : Type} : Option α → Except PyErr α
  | some a => .ok a
  | none => .error .valueError

/-- Rescale one entry: `int(time_to_ms(t) * correction_factor)` for start and
end, re-encoded with `ms_to_time`.  The Python `int * float` product converts
the exact int to binary64 (exact below `2^53`) and rounds the product once. -/
def scaleEntry (factor : ℚ) (e : GenEntry) : Except PyErr GenEntry := do
  let s ← orValueError (time_to_ms e.start_time)
  let t ← orValueError (time_to_ms e.end_time)
  let s' := pyTrunc (pyMul (s : ℚ) factor)
  let t' := pyTrunc (pyMul (t : ℚ) factor)
  pure { e with start_time := ms_to_time s'.toNat, end_time := ms_to_time t'.toNat }

/-- `SRTGenerator.correct_timestamps_proportionally`.

Mirrors the source exactly: empty content or zero duration returns the
content unchanged; an unparseable (empty-parse) content likewise; otherwise
`factor = (audio_duration * 1000) / time_to_ms(last.end_time)` — an unguarded
division that raises `ZeroDivisionError` when the last end time is zero —
and every entry is rescaled and the track re-serialized. -/
def correct_timestamps_proportionally (srt_content : String) (audio_duration : ℚ) :
    Except PyErr String :=
  if srt_content = "" || audio_duration = 0 then .ok srt_content
  else
    let parsed := parse_srt srt_content
    match parsed.getLast? with
    | none => .ok srt_content
    | some lastE => do
        let subEnd ← orValueError (time_to_ms lastE.end_time)
        if subEnd = 0 then .error .zeroDivisionError
        else do
          let factor := pyDiv (pyMul audio_duration 1000) (subEnd : ℚ)
          let entries ← parsed.mapM (scaleEntry factor)
          pure (buildSrt entries)

/-! ## Structural validator (`SubtitleCorrector.validate_srt`)

`SubtitleCorrector.parse_srt` (pysrt-based) produces the dict
`{sub.index: {"time": f"{start} --> {end}", "text": sub.text}}`.  A Python
dict is modelled as an insertion-ordered association list with (in wellformed
tracks) pairwise-distinct keys. -/

structure CEntry where
  time : String
  text : String
deriving Repr, DecidableEq

/-- Insertion-ordered model of the subtitle dict. -/
abbrev SrtData := List (ℕ × CEntry)

def keyList (d : SrtData) : List ℕ := d.map Prod.fst

def keySet (d : SrtData) : Finset ℕ := (keyList d).toFinset

/-- Dict lookup (`d[k]`); total with a default because every access in the
modelled code is to a key produced from the dict itself. -/
def lookupE (d : SrtData) (k : ℕ) : CEntry :=
  ((d.find? (fun p => p.1 = k)).map Prod.snd).getD ⟨"", ""⟩

/-- The length-delta test of `validate_srt`:
`abs(orig_len - mod_len) / max(1, orig_len) > 0.3`.  The Python expression
divides floats; in the realizable range of string lengths the float
comparison against the literal `0.3` coincides with the exact rational
comparison against `3/10`, which is what we model. -/
def lenViol (a b : ℕ) : Bool :=
  decide ((3 : ℚ) / 10 < |(a : ℚ) - (b : ℚ)| / max 1 (a : ℚ))

/-- Diagnostic payload of a validation failure.  The source renders this
into a Chinese message string (for the index-mismatch case via Python's
`set` repr, whose element order is an implementation detail); the payload
carries exactly the data the message exposes. -/
inductive VRes where
  | indexMismatch (missing extra : Finset ℕ)
  | timeChanged (idx : ℕ)
  | lenChanged (idx origLen modLen : ℕ)
  | passed
deriving DecidableEq

/-- `SubtitleCorrector.validate_srt`: three checks in source order, first
failure winning; the two per-index loops iterate over `original_srt` in
insertion order, so the first offending index in that order is reported. -/
def validate_srt (o m : SrtData) : Bool × VRes :=
  if keySet o ≠ keySet m then
    (false, .indexMismatch (keySet o \ keySet m) (keySet m \ keySet o))
  else
    match (keyList o).find? (fun k => (lookupE o k).time ≠ (lookupE m k).time) with
    | some k => (false, .timeChanged k)
    | none =>
        match (keyList o).find? (fun k => lenViol (lookupE o k).text.length (lookupE m k).text.length) with
        | some k => (false, .lenChanged k (lookupE o k).text.length (lookupE m k).text.length)
        | none => (true, .passed)

/-! ## Correction engine (`SubtitleCorrector.correct_subtitles`)

The external AI is an oracle `ai : ℕ → ℕ → Except String String`, mapping the
batch loop index `i` and the 0-based attempt number to either a response text
or an exception message (`generate_content` failures surface as exceptions;
the source classifies an exception as a rate limit iff `"429" in str(e)`).
File loading and `preprocess_transcript` are upstream of everything the
claims concern; the transcript enters as an already-loaded string.  `sleeps`
records the durations passed to `time.sleep`, `warns` the indices reported by
the retained-original warning, and `calls` counts `generate_content`
invocations. -/

/-- Substring test, `pat in s` for strings. -/
def hasInfix (pat : List Char) : List Char → Bool
  | [] => pat.isEmpty
  | l@(_ :: rest) => pat.isPrefixOf l || hasInfix pat rest

def contains429 (e : String) : Bool := hasInfix "429".data e.data

structure RetryOut where
  sleeps : List ℕ
  calls : ℕ
  result : Except String String
deriving Repr

/-- The retry loop: `max_retries = 3`, `retry_delay = 5` initially, doubled
after each rate-limited attempt; `time.sleep(retry_delay)` before each
attempt only when `i > 0` (`doSleep`); a non-429 exception is re-raised
immediately; the third consecutive 429 exhausts the retries and is re-raised.
`fuel` counts the remaining iterations of `while retry_count < max_retries`. -/
def retryGo (call : ℕ → Except String String) (doSleep : Bool) :
    ℕ → ℕ → ℕ → RetryOut
  | _, _, 0 => { sleeps := [], calls := 0, result := .error "" }
  | attempt, delay, fuel + 1 =>
      let s0 : List ℕ := if doSleep then [delay] else []
      match call attempt with
      | .ok r => { sleeps := s0, calls := 1, result := .ok r }
      | .error e =>
          if contains429 e then
            if fuel = 0 then { sleeps := s0, calls := 1, result := .error e }
            else
              let next := retryGo call doSleep (attempt + 1) (delay * 2) fuel
              { sleeps := s0 ++ next.sleeps, calls := 1 + next.calls, result := next.result }
          else { sleeps := s0, calls := 1, result := .error e }

def retryRun (call : ℕ → Except String String) (doSleep : Bool) : RetryOut :=
  retryGo call doSleep 0 5 3

/-- `re.match(r'(?:處理→ )?編號(\d+):(.*)', line)`: after the optional
target marker, the literal `編號`, a maximal nonempty digit run, a colon, and
the raw remainder of the line as group 2. -/
def parseEditCore (l : List Char) : Option (ℕ × String) := do
  let l1 ← expectLit "編號".data l
  let ds := l1.takeWhile isDig
  if ds = [] then none
  else
    match l1.drop ds.length with
    | ':' :: rest => some (digitsVal ds, String.mk rest)
    | _ => none

def parseEditLine (line : String) : Option (ℕ × String) :=
  match expectLit "處理→ ".data line.data with
  | some r => parseEditCore r
  | none => parseEditCore line.data

/-- Overwrite the text of key `k` (every occurrence; keys are pairwise
distinct in wellformed data, matching the Python dict update). -/
def setText (d : SrtData) (k : ℕ) (t : String) : SrtData :=
  d.map (fun p => if p.1 = k then (p.1, { p.2 with text := t }) else p)

/-- The response-application loop: for each line matching the edit pattern
whose index is in the batch's target keys, overwrite that entry's text with
the stripped group 2 and record the index as processed. -/
def applyLines (lines : List String) (batchKeys : List ℕ) (d : SrtData) :
    SrtData × Finset ℕ :=
  lines.foldl
    (fun acc line =>
      match parseEditLine line with
      | some (idx, raw) =>
          if idx ∈ batchKeys then (setText acc.1 idx (pyStrip raw), insert idx acc.2)
          else acc
      | none => acc)
    (d, ∅)

/-- First-occurrence split of `l` on the literal `pat`
(`re.split(pat, s, maxsplit=1)`). -/
def findSplit (pat : List Char) : List Char → Option (List Char × List Char)
  | [] => if pat.isEmpty then some ([], []) else none
  | l@(c :: rest) =>
      if pat.isPrefixOf l then some ([], l.drop pat.length)
      else
        match findSplit pat rest with
        | some (pre, post) => some (c :: pre, post)
        | none => none

def delimChars : List Char := "<<<分隔符號>>>".data

/-- Response lines: `parts[0].strip().split('\n')` of the delimiter split. -/
def responseParts (resp : String) : List Char × Option (List Char) :=
  match findSplit delimChars resp.data with
  | some (pre, post) => (pre, some post)
  | none => (resp.data, none)

def responseLines (resp : String) : List String :=
  (((responseParts resp).1 |> stripChars).splitOn '\n').map String.mk

def reportLines (resp : String) : List String :=
  match (responseParts resp).2 with
  | some post => ((stripChars post).splitOn '\n').map String.mk
  | none => []

/-- The per-line prompt text, `"處理→ "`/`"上下文: "` marker included. -/
def subtitleLine (d : SrtData) (batchKeys : List ℕ) (k : ℕ) : String :=
  (if k ∈ batchKeys then "處理→ " else "上下文: ") ++ "編號" ++ String.mk (natRepr k)
    ++ ":" ++ (lookupE d k).text

structure CState where
  data : SrtData
  reports : List String
  sleeps : List ℕ
  warns : List ℕ
  calls : ℕ
deriving Repr

/-- Target keys of the batch starting at loop index `i`:
`keys[i:min(i + batch_size, len(keys))]`. -/
def targetKeys (keys : List ℕ) (bsN i : ℕ) : List ℕ := (keys.drop i).take bsN

/-- Context keys: `keys[max(0, i - overlap):i]` for `i > 0`, else `[]`
(overlap fixed at 2; truncated `ℕ` subtraction is exactly the `max`). -/
def contextKeys (keys : List ℕ) (i : ℕ) : List ℕ :=
  if i = 0 then [] else (keys.drop (i - 2)).take (i - (i - 2))

/-- One iteration of the batch loop: run the AI call under the retry policy,
then parse and apply the response to the working copy; an escaped exception
becomes the batch-scoped error return
`f"第 {i // (batch_size - overlap) + 1} 批次修正過程失敗：{e}"`. -/
def processBatch (ai : ℕ → ℕ → Except String String) (keys : List ℕ)
    (bsN stepN i : ℕ) (st : CState) : Except (CState × String) CState :=
  let batchKeys := targetKeys keys bsN i
  let ro := retryRun (ai i) (0 < i)
  let st1 := { st with sleeps := st.sleeps ++ ro.sleeps, calls := st.calls + ro.calls }
  match ro.result with
  | .error e =>
      .error (st1, "第 " ++ String.mk (natRepr (i / stepN + 1)) ++ " 批次修正過程失敗：" ++ e)
  | .ok resp =>
      let ap := applyLines (responseLines resp) batchKeys st1.data
      let warnsNew := batchKeys.filter (fun k => decide (k ∉ ap.2))
      .ok { st1 with data := ap.1, warns := st1.warns ++ warnsNew,
                     reports := st1.reports ++ reportLines resp }

def runBatches (ai : ℕ → ℕ → Except String String) (keys : List ℕ)
    (bsN stepN : ℕ) : List ℕ → CState → CState × Option String
  | [], st => (st, none)
  | i :: rest, st =>
      match processBatch ai keys bsN stepN i st with
      | .ok st' => runBatches ai keys bsN stepN rest st'
      | .error (st', msg) => (st', some msg)

inductive RunResult where
  | success (track : SrtData) (reports : List String)
  | failure (msg : String)
  | uncaught (e : PyErr)
deriving Repr, DecidableEq

structure RunOutput where
  result : RunResult
  sleeps : List ℕ
  warns : List ℕ
  calls : ℕ
deriving Repr, DecidableEq

/-- Final materialization `sorted(srt_data.items())`: ascending key order. -/
def sortTrack (d : SrtData) : SrtData :=
  d.mergeSort (fun a b => Nat.ble a.1 b.1)

/-- String rendering of a validation failure ("SRT結構驗證失敗: ..."); the
index-mismatch arm abbreviates Python's `set` repr, whose element order is
unspecified.  `validate_srt d d` always passes (see
`validate_srt_self_passed` below), so `correct_subtitles` never actually
renders one of these. -/
def renderVRes : VRes → String
  | .indexMismatch _ _ => "編號不匹配"
  | .timeChanged k => "編號 " ++ String.mk (natRepr k) ++ " 的時間戳被修改"
  | .lenChanged k a b =>
      "編號 " ++ String.mk (natRepr k) ++ " 的文字長度變化過大: 原 "
        ++ String.mk (natRepr a) ++ ", 現 " ++ String.mk (natRepr b)
  | .passed => "驗證通過"

/-- The loop starts: `range(0, len(keys), step)` for `step > 0`. -/
def rangeStarts (n stepN : ℕ) : List ℕ :=
  (List.range ((n + stepN - 1) / stepN)).map (· * stepN)

/-- `SubtitleCorrector.correct_subtitles`, file I/O elided (transcript and
parsed srt enter as values).

Modelling notes, mirroring the source faithfully:
* `srt_data = original_srt_data.copy()` is a *shallow* `dict.copy`: the
  per-entry inner dicts are shared between `original_srt_data` and
  `srt_data`, so the in-place text mutations `srt_data[idx]['text'] = ...`
  also mutate `original_srt_data`'s entries.  Hence the final call
  `validate_srt(original_srt_data, srt_data)` compares the post-correction
  data with itself, which is what this definition encodes.
* `range(0, len(keys), batch_size - 2)` raises `ValueError` when the step is
  zero (before any AI call) and is empty when the step is negative.
* The prompt template (`prompts/zh_prompt.py`) only feeds the oracle, whose
  responses are modelled as an arbitrary function of batch index and attempt,
  so its text is not reproduced; `subtitleLine` captures the marked per-line
  format the engine sends. -/
def correct_subtitles (ai : ℕ → ℕ → Except String String) (transcript : String)
    (original : SrtData) (batch_size : ℤ) : RunOutput :=
  let keys := keyList original
  let step : ℤ := batch_size - 2
  if step = 0 then
    { result := .uncaught .valueError, sleeps := [], warns := [], calls := 0 }
  else
    let stepN := step.toNat
    let bsN := batch_size.toNat
    let starts := if step < 0 then [] else rangeStarts keys.length stepN
    let st0 : CState := { data := original, reports := [], sleeps := [], warns := [], calls := 0 }
    let (stF, err) := runBatches ai keys bsN stepN starts st0
    match err with
    | some msg =>
        { result := .failure msg, sleeps := stF.sleeps, warns := stF.warns, calls := stF.calls }
    | none =>
        let (ok, vres) := validate_srt stF.data stF.data
        if ok then
          { result := .success (sortTrack stF.data) stF.reports,
            sleeps := stF.sleeps, warns := stF.warns, calls := stF.calls }
        else
          { result := .failure ("SRT結構驗證失敗: " ++ renderVRes vres),
            sleeps := stF.sleeps, warns := stF.warns, calls := stF.calls }

/-- The batch-scoped error message a failed batch produces. -/
def batchFailMsg (stepN i : ℕ) (e : String) : String :=
  "第 " ++ String.mk (natRepr (i / stepN + 1)) ++ " 批次修正過程失敗：" ++ e

/-! ## Shared lemmas -/

/-- Key-and-time projection of the working dict; the correction loop must
leave it untouched. -/
def keyTimes (d : SrtData) : List (ℕ × String) := d.map (fun p => (p.1, p.2.time))

theorem keyTimes_setText (d : SrtData) (k : ℕ) (t : String) :
    keyTimes (setText d k t) = keyTimes d := by
  simp only [keyTimes, setText, List.map_map]
  refine List.map_congr_left (fun p _ => ?_)
  by_cases h : p.1 = k <;> simp [h]

theorem keyTimes_applyLines (lines : List String) (bk : List ℕ) (d : SrtData) (s : Finset ℕ) :
    keyTimes (lines.foldl
      (fun acc line =>
        match parseEditLine line with
        | some (idx, raw) =>
            if idx ∈ bk then (setText acc.1 idx (pyStrip raw), insert idx acc.2)
            else acc
        | none => acc)
      (d, s)).1 = keyTimes d := by
  induction lines generalizing d s with
  | nil => rfl
  | cons line rest ih =>
      simp only [List.foldl_cons]
      rcases hp : parseEditLine line with _ | ⟨idx, raw⟩
      · simpa [hp] using ih d s
      · by_cases hm : idx ∈ bk
        · simpa [hp, hm, keyTimes_setText] using
            (ih (setText d idx (pyStrip raw)) (insert idx s)).trans (keyTimes_setText d idx (pyStrip raw))
        · simpa [hp, hm] using ih d s

theorem keyTimes_applyLines' (lines : List String) (bk : List ℕ) (d : SrtData) :
    keyTimes (applyLines lines bk d).1 = keyTimes d :=
  keyTimes_applyLines lines bk d ∅

theorem keyTimes_processBatch (ai : ℕ → ℕ → Except String String) (keys : List ℕ)
    (bsN stepN i : ℕ) (st st' : CState)
    (h : processBatch ai keys bsN stepN i st = .ok st') :
    keyTimes st'.data = keyTimes st.data := by
  revert h
  unfold processBatch
  rcases hres : (retryRun (ai i) (0 < i)).result with e | resp <;>
    simp only [hres] <;> intro h
  · cases h
  · simp only [Except.ok.injEq] at h
    subst h
    exact keyTimes_applyLines' _ _ _

theorem data_processBatch_error (ai : ℕ → ℕ → Except String String) (keys : List ℕ)
    (bsN stepN i : ℕ) (st st1 : CState) (msg : String)
    (h : processBatch ai keys bsN stepN i st = .error (st1, msg)) :
    st1.data = st.data := by
  revert h
  unfold processBatch
  rcases hres : (retryRun (ai i) (0 < i)).result with e | resp <;>
    simp only [hres] <;> intro h
  · simp only [Except.error.injEq, Prod.mk.injEq] at h
    rw [← h.1]
  · cases h

theorem keyTimes_runBatches (ai : ℕ → ℕ → Except String String) (keys : List ℕ)
    (bsN stepN : ℕ) (starts : List ℕ) (st : CState) :
    keyTimes (runBatches ai keys bsN stepN starts st).1.data = keyTimes st.data := by
  induction starts generalizing st with
  | nil => rfl
  | cons i rest ih =>
      simp only [runBatches]
      rcases hb : processBatch ai keys bsN stepN i st with ⟨st1, msg⟩ | st1
      · show keyTimes st1.data = keyTimes st.data
        rw [data_processBatch_error ai keys bsN stepN i st st1 msg hb]
      · show keyTimes (runBatches ai keys bsN stepN rest st1).1.data = keyTimes st.data
        exact (ih st1).trans (keyTimes_processBatch ai keys bsN stepN i st st1 hb)

theorem lookupE_congr_keyTimes (o m : SrtData) (h : keyTimes o = keyTimes m) (k : ℕ) :
    (lookupE o k).time = (lookupE m k).time := by
  induction o generalizing m with
  | nil => cases m with
    | nil => rfl
    | cons q t => simp [keyTimes] at h
  | cons p t ih =>
      cases m with
      | nil => simp [keyTimes] at h
      | cons q u =>
          simp only [keyTimes, List.map_cons, List.cons.injEq, Prod.mk.injEq] at h
          obtain ⟨⟨h1, h2⟩, h3⟩ := h
          by_cases hk : p.1 = k
          · have hq : q.1 = k := by rw [← h1]; exact hk
            rw [lookupE, lookupE, List.find?_cons_of_pos _ (by simpa using hk),
              List.find?_cons_of_pos _ (by simpa using hq)]
            simpa using h2
          · have hq : ¬ q.1 = k := by rw [← h1]; exact hk
            rw [lookupE, lookupE, List.find?_cons_of_neg _ (by simpa using hk),
              List.find?_cons_of_neg _ (by simpa using hq)]
            exact ih u (by simpa [keyTimes] using h3)

/-- The validator applied to one and the same dict always passes: both
per-index loops compare a value with itself and the key sets coincide. -/
theorem validate_srt_self_passed (d : SrtData) : validate_srt d d = (true, .passed) := by
  have hq : ¬ ((3 : ℚ) / 10 < 0) := by norm_num
  have hf : List.find? (fun (_ : ℕ) => false) (keyList d) = none := by simp
  unfold validate_srt
  simp [lenViol, hq, hf]

/-! ## Concrete fixtures -/

/-- A two-entry track as produced by `parse_srt` on the test SRT of
`tests/test_subtitle_corrector_simple.py` (texts replaced by Latin letters of
the same lengths 10 and 2). -/
def demoTrack : SrtData :=
  [(1, ⟨"00:00:00,000 --> 00:00:05,000", "abcdefghij"⟩),
   (2, ⟨"00:00:05,000 --> 00:00:10,000", "fg"⟩)]

/-- An oracle whose accepted rewrite doubles entry 1's text length
(10 → 20 characters, a 100% change). -/
def aiGrow : ℕ → ℕ → Except String String :=
  fun _ _ => .ok "編號1:xxxxxxxxxxxxxxxxxxxx\n編號2:fg"

/-- The working data after `aiGrow`'s rewrite is applied. -/
def demoGrown : SrtData :=
  [(1, ⟨"00:00:00,000 --> 00:00:05,000", "xxxxxxxxxxxxxxxxxxxx"⟩),
   (2, ⟨"00:00:05,000 --> 00:00:10,000", "fg"⟩)]

/-- An oracle that always answers with an empty rewrite section (all target
entries keep their text). -/
def aiEmpty : ℕ → ℕ → Except String String := fun _ _ => .ok ""

/-- A ten-entry track with one-character texts. -/
def track10 : SrtData := (List.range' 1 10).map (fun i => (i, ⟨"t", "x"⟩))

/-- An oracle that hits the rate limit on the first two attempts of every
batch and succeeds on the third. -/
def aiTwo429 : ℕ → ℕ → Except String String :=
  fun _ attempt => if attempt < 2 then .error "429 Resource exhausted" else .ok ""

/-! ## Claims -/

/-- **C1** (code bug).  The spec requires the structural validator to compare
the pre-correction entries with the post-correction ones and to fail the
whole run when a text length changes by more than 30%.  In the source,
`srt_data = original_srt_data.copy()` is a shallow copy, so the in-place text
updates mutate `original_srt_data` too and the final
`validate_srt(original_srt_data, srt_data)` compares the corrected data with
itself.  Concretely: an accepted rewrite growing entry 1 from 10 to 20
characters (a 100% change) passes validation and a corrected track *is*
returned, although validating against the true pre-correction entries would
have rejected it with the length-delta diagnostic. -/
theorem c1_validator_compares_aliased_data :
    correct_subtitles aiGrow "t" demoTrack 10 =
      { result := .success demoGrown [], sleeps := [], warns := [], calls := 1 }
    ∧ validate_srt demoTrack demoGrown = (false, .lenChanged 1 10 20) := by
  constructor
  · with_unfolding_all decide
  · with_unfolding_all decide

/-- **C2** (code bug).  The spec's round-trip property
`time_to_ms(ms_to_time(x)) = x` fails on the code: `time_to_ms` evaluates
`int(h)*3600 + int(m)*60 + float("SS.mmm")` in binary64 and truncates with
`int(total*1000)`; at `x = 1001` the float value of `"01.001"` is slightly
below `1.001`, the product is `1000.9999999999999`, and truncation returns
`1000`. -/
theorem c2_roundtrip_loses_millisecond_at_1001 :
    ms_to_time 1001 = "00:00:01,001"
    ∧ time_to_ms (ms_to_time 1001) = some 1000 := by
  constructor
  · with_unfolding_all decide
  · with_unfolding_all decide

/-- **C10** (confirmed).  A non-empty parse whose last entry ends at
`00:00:00,000`, together with a nonzero measured duration, drives
`correct_timestamps_proportionally` into the unguarded division
`(audio_duration * 1000) / subtitle_end_time` with a zero denominator:
`ZeroDivisionError` instead of a returned string. -/
theorem c10_zero_end_time_division_by_zero :
    parse_srt "1\n00:00:00,000 --> 00:00:00,000\nhi\n\n" =
      [{ index := 1, start_time := "00:00:00,000", end_time := "00:00:00,000", text := "hi" }]
    ∧ correct_timestamps_proportionally "1\n00:00:00,000 --> 00:00:00,000\nhi\n\n" 10 =
      .error .zeroDivisionError := by
  constructor
  · with_unfolding_all decide
  · with_unfolding_all decide

/-- **C7** (counterexample).  The claim says every batch size ≤ 2 fails with
a `ConfigError` before any AI call.  At `batch_size = 1` the stride is
negative, `range(0, len(keys), -1)` is empty, no batch runs, no AI call is
made, and the run *succeeds*, returning the original track unchanged. -/
theorem c7_counterexample_batchsize_one_succeeds :
    (correct_subtitles aiEmpty "t" demoTrack 1).result = .success demoTrack []
    ∧ (correct_subtitles aiEmpty "t" demoTrack 1).calls = 0 := by
  constructor
  · with_unfolding_all decide
  · with_unfolding_all decide

/-- **C7** (amended).  There is no `ConfigError` anywhere in the source.
What actually happens for a batch size not exceeding the overlap 2:
`batch_size = 2` makes the loop stride zero and `range` raises an uncaught
`ValueError` before any AI call; `batch_size < 2` makes the stride negative,
`range(0, n, step)` is empty, the correction loop body never runs, no AI
call is made, and the unmodified track is returned as a success. -/
theorem c7_degenerate_batchsize_amended (ai : ℕ → ℕ → Except String String)
    (t : String) (orig : SrtData) (bs : ℤ) :
    (bs = 2 → correct_subtitles ai t orig bs =
      { result := .uncaught .valueError, sleeps := [], warns := [], calls := 0 })
    ∧ (bs < 2 → correct_subtitles ai t orig bs =
      { result := .success (sortTrack orig) [], sleeps := [], warns := [], calls := 0 }) := by
  constructor
  · intro h
    subst h
    simp [correct_subtitles]
  · intro h
    have hne : ¬ (bs - 2 = 0) := by omega
    have hlt : bs - 2 < 0 := by omega
    simp [correct_subtitles, hne, hlt, runBatches, validate_srt_self_passed]

theorem c7_witness :
    correct_subtitles aiEmpty "t" demoTrack 2 =
      { result := .uncaught .valueError, sleeps := [], warns := [], calls := 0 }
    ∧ correct_subtitles aiEmpty "t" demoTrack 1 =
      { result := .success (sortTrack demoTrack) [], sleeps := [], warns := [], calls := 0 } :=
  ⟨(c7_degenerate_batchsize_amended aiEmpty "t" demoTrack 2).1 rfl,
   (c7_degenerate_batchsize_amended aiEmpty "t" demoTrack 1).2 (by norm_num)⟩

/-- **C3** (counterexample).  The claim's edge case "when `N ≤ batchSize`
there is exactly one batch with no context" fails: for 10 keys and
`batchSize = 10` the stride is 8 and `range(0, 10, 8) = [0, 8]`, so a second
batch targets keys `[9, 10]` with context `[7, 8]`, and the engine makes two
AI calls. -/
theorem c3_counterexample_two_batches_when_N_le_B :
    (keyList track10).length ≤ 10
    ∧ rangeStarts (keyList track10).length ((10 : ℤ) - 2).toNat = [0, 8]
    ∧ (correct_subtitles aiEmpty "t" track10 10).calls = 2
    ∧ targetKeys (keyList track10) 10 8 = [9, 10]
    ∧ contextKeys (keyList track10) 8 = [7, 8] := by
  refine ⟨?_, ?_, ?_, ?_, ?_⟩ <;> with_unfolding_all decide

/-- `range(0, n, s)` for positive `s` contains exactly the multiples of `s`
below `n`. -/
theorem mem_rangeStarts (n s : ℕ) (hs : 0 < s) (i : ℕ) :
    i ∈ rangeStarts n s ↔ s ∣ i ∧ i < n := by
  unfold rangeStarts
  simp only [List.mem_map, List.mem_range]
  constructor
  · rintro ⟨j, hj, rfl⟩
    refine ⟨dvd_mul_left s j, ?_⟩
    have hle : (j + 1) * s ≤ n + s - 1 := (Nat.le_div_iff_mul_le hs).mp hj
    have hexp : (j + 1) * s = j * s + s := by ring
    set k := j * s
    omega
  · rintro ⟨⟨j, rfl⟩, hlt⟩
    refine ⟨j, ?_, by ring⟩
    have hle : (j + 1) * s ≤ n + s - 1 := by
      have hexp : (j + 1) * s = s * j + s := by ring
      set k := s * j
      omega
    exact (Nat.le_div_iff_mul_le hs).mpr hle

/-- The `j`-th start of `range(0, n, s)` is `j*s`, present iff `j*s < n`. -/
theorem rangeStarts_getElem (n s : ℕ) (hs : 0 < s) (j : ℕ) :
    (rangeStarts n s)[j]? = if j * s < n then some (j * s) else none := by
  unfold rangeStarts
  rw [List.getElem?_map]
  by_cases hj : j < (n + s - 1) / s
  · rw [List.getElem?_range hj]
    have hle : (j + 1) * s ≤ n + s - 1 := (Nat.le_div_iff_mul_le hs).mp hj
    have hexp : (j + 1) * s = j * s + s := by ring
    have : j * s < n := by set k := j * s; omega
    simp [this]
  · rw [List.getElem?_eq_none (by simpa using Nat.le_of_not_lt hj)]
    have hnot : ¬ (j + 1) * s ≤ n + s - 1 := fun hc => hj ((Nat.le_div_iff_mul_le hs).mpr hc)
    have hexp : (j + 1) * s = j * s + s := by ring
    have : ¬ j * s < n := by set k := j * s; omega
    simp [this]

/-- **C3** (amended).  The striding formula of the claim holds: with
`step = batchSize - 2 > 0`, the batch starts are exactly the multiples
`j*step < N` in increasing order, batch `j` targets
`keys[j*step : j*step + batchSize]`, and a non-initial batch at start `i`
carries context `keys[max(0, i-2) : i]`; the `[1..23]`/`batchSize = 10`
example produces exactly the three claimed batches.  The edge case must be
weakened: there is exactly one batch (with no context) iff
`1 ≤ N ≤ batchSize - 2`; for `batchSize - 2 < N ≤ batchSize` the engine
emits a second, overlapping batch (see the counterexample). -/
theorem c3_segmenter_striding_amended (keys : List ℕ) (bs : ℤ) (h : 2 < bs) :
    (∀ i : ℕ, i ∈ rangeStarts keys.length (bs - 2).toNat ↔
        (bs - 2).toNat ∣ i ∧ i < keys.length)
    ∧ (∀ j : ℕ, (rangeStarts keys.length (bs - 2).toNat)[j]? =
        if j * (bs - 2).toNat < keys.length then some (j * (bs - 2).toNat) else none)
    ∧ (∀ i : ℕ, targetKeys keys bs.toNat i = (keys.drop i).take bs.toNat)
    ∧ (∀ i : ℕ, 0 < i → contextKeys keys i = (keys.drop (i - 2)).take (min i 2))
    ∧ (1 ≤ keys.length → keys.length ≤ (bs - 2).toNat →
        rangeStarts keys.length (bs - 2).toNat = [0]
        ∧ contextKeys keys 0 = []
        ∧ (keys.length ≤ bs.toNat → targetKeys keys bs.toNat 0 = keys))
    ∧ targetKeys (List.range' 1 23) 10 0 = List.range' 1 10
    ∧ contextKeys (List.range' 1 23) 0 = []
    ∧ targetKeys (List.range' 1 23) 10 8 = List.range' 9 10
    ∧ contextKeys (List.range' 1 23) 8 = [7, 8]
    ∧ targetKeys (List.range' 1 23) 10 16 = List.range' 17 7
    ∧ contextKeys (List.range' 1 23) 16 = [15, 16] := by
  have hs : 0 < (bs - 2).toNat := by omega
  refine ⟨mem_rangeStarts _ _ hs, rangeStarts_getElem _ _ hs, fun i => rfl, ?_, ?_,
    by decide, by decide, by decide, by decide, by decide, by decide⟩
  · intro i hi
    have : i - (i - 2) = min i 2 := by omega
    simp [contextKeys, Nat.pos_iff_ne_zero.mp hi, this]
  · intro h1 h2
    have hdiv : (keys.length + (bs - 2).toNat - 1) / (bs - 2).toNat = 1 := by
      apply Nat.div_eq_of_lt_le
      · set s := (bs - 2).toNat; omega
      · set s := (bs - 2).toNat
        have : (1 + 1) * s = s + s := by ring
        omega
    refine ⟨?_, rfl, ?_⟩
    · unfold rangeStarts
      rw [hdiv, show List.range 1 = [0] from rfl]
      simp
    · intro h3
      unfold targetKeys
      rw [List.drop_zero]
      exact List.take_of_length_le h3

theorem c3_witness :
    (rangeStarts (List.range' 1 23).length ((10 : ℤ) - 2).toNat)[1]? = some 8 := by
  have := (c3_segmenter_striding_amended (List.range' 1 23) 10 (by norm_num)).2.1 1
  simpa using this

/-- **C5** (counterexample).  The claim asserts rate-limited calls are
retried with exponential backoff starting at 5 seconds.  On the *first*
batch (`i = 0`) the source never sleeps (`if i > 0: time.sleep(...)`), so a
run whose first batch is rate-limited twice retries with *no* delay at all:
three AI calls, an empty sleep trace, and eventual success. -/
theorem c5_counterexample_no_backoff_first_batch :
    correct_subtitles aiTwo429 "t" demoTrack 10 =
      { result := .success demoTrack [], sleeps := [], warns := [1, 2], calls := 3 } := by
  with_unfolding_all decide

/-- A failed batch surfaces exactly the batch-scoped message built from the
loop index and the escaped exception text. -/
theorem processBatch_error_shape (ai : ℕ → ℕ → Except String String) (keys : List ℕ)
    (bsN stepN i : ℕ) (st st1 : CState) (msg : String)
    (h : processBatch ai keys bsN stepN i st = .error (st1, msg)) :
    ∃ e, msg = batchFailMsg stepN i e ∧ (retryRun (ai i) (0 < i)).result = .error e := by
  revert h
  unfold processBatch
  rcases hres : (retryRun (ai i) (0 < i)).result with e | resp <;>
    simp only [hres] <;> intro h
  · refine ⟨e, ?_, rfl⟩
    simp only [Except.error.injEq, Prod.mk.injEq] at h
    rw [← h.2]
    rfl
  · cases h

theorem runBatches_failure (ai : ℕ → ℕ → Except String String) (keys : List ℕ)
    (bsN stepN : ℕ) (starts : List ℕ) (st : CState) (msg : String)
    (h : (runBatches ai keys bsN stepN starts st).2 = some msg) :
    ∃ i e, msg = batchFailMsg stepN i e ∧ (retryRun (ai i) (0 < i)).result = .error e := by
  induction starts generalizing st with
  | nil => cases h
  | cons i rest ih =>
      revert h
      simp only [runBatches]
      rcases hb : processBatch ai keys bsN stepN i st with ⟨st1, m⟩ | st1
      · intro h
        obtain ⟨e, he, hr⟩ := processBatch_error_shape ai keys bsN stepN i st st1 m hb
        exact ⟨i, e, by rw [← Option.some_inj.mp h]; exact he, hr⟩
      · intro h
        exact ih st1 h

/-- **C5** (amended).  The retry/abort behaviour of the engine:
a non-rate-limit AI failure aborts after a single attempt; three consecutive
rate-limit failures exhaust the 3-attempt budget and abort; a rate-limited
first attempt followed by a success retries.  The retry delay starts at 5
seconds and doubles after each rate-limited attempt, and the sleep of the
current delay before each attempt happens only for batches after the first
(`i > 0`) — the first batch retries with no delay.  Every fatal outcome
surfaces as the single batch-scoped error message
`第 {i // step + 1} 批次修正過程失敗：{e}`, and a failed run carries no
corrected track or report (`RunResult.failure` holds only the message). -/
theorem c5_retry_policy_amended :
    (∀ (call : ℕ → Except String String) (e : String),
      call 0 = .error e → contains429 e = false →
        retryRun call true = { sleeps := [5], calls := 1, result := .error e }
        ∧ retryRun call false = { sleeps := [], calls := 1, result := .error e })
    ∧ (∀ (call : ℕ → Except String String) (e0 e1 e2 : String),
        call 0 = .error e0 → call 1 = .error e1 → call 2 = .error e2 →
        contains429 e0 = true → contains429 e1 = true → contains429 e2 = true →
          retryRun call true = { sleeps := [5, 10, 20], calls := 3, result := .error e2 }
          ∧ retryRun call false = { sleeps := [], calls := 3, result := .error e2 })
    ∧ (∀ (call : ℕ → Except String String) (e0 r : String),
        call 0 = .error e0 → contains429 e0 = true → call 1 = .ok r →
          retryRun call true = { sleeps := [5, 10], calls := 2, result := .ok r }
          ∧ retryRun call false = { sleeps := [], calls := 2, result := .ok r })
    ∧ (∀ (ai : ℕ → ℕ → Except String String) (t : String) (orig : SrtData) (bs : ℤ)
        (msg : String),
        (correct_subtitles ai t orig bs).result = .failure msg →
          ∃ i e, msg = batchFailMsg (bs - 2).toNat i e
            ∧ (retryRun (ai i) (0 < i)).result = .error e) := by
  refine ⟨?_, ?_, ?_, ?_⟩
  · intro call e h0 h4
    constructor <;> simp [retryRun, retryGo, h0, h4]
  · intro call e0 e1 e2 h0 h1 h2 c0 c1 c2
    constructor <;> simp [retryRun, retryGo, h0, h1, h2, c0, c1, c2]
  · intro call e0 r h0 c0 h1
    constructor <;> simp [retryRun, retryGo, h0, c0, h1]
  · intro ai t orig bs msg h
    revert h
    unfold correct_subtitles
    by_cases hz : bs - 2 = 0
    · simp [hz]
    · simp only [if_neg hz]
      rcases hrb : runBatches ai (keyList orig) bs.toNat (bs - 2).toNat
          (if bs - 2 < 0 then [] else rangeStarts (keyList orig).length (bs - 2).toNat)
          { data := orig, reports := [], sleeps := [], warns := [], calls := 0 }
        with ⟨stF, err⟩
      rcases err with _ | msg'
      · rw [validate_srt_self_passed stF.data]
        intro h
        cases h
      · intro h
        simp only [RunResult.failure.injEq] at h
        subst h
        exact runBatches_failure ai (keyList orig) bs.toNat (bs - 2).toNat _ _ msg'
          (by rw [hrb])

theorem c5_witness :
    retryRun (fun _ => .error "boom") true =
      { sleeps := [5], calls := 1, result := .error "boom" } :=
  ((c5_retry_policy_amended).1 (fun _ => .error "boom") "boom" rfl (by decide)).1

theorem lenViol_false_iff (a b : ℕ) :
    lenViol a b = false ↔ |(a : ℚ) - (b : ℚ)| / max 1 (a : ℚ) ≤ 3 / 10 := by
  simp [lenViol, not_lt]

/-- **C4** (confirmed).  `validate_srt` evaluates its three checks in order
with the first failure winning: it passes iff the index sets agree, no
shared index changed its timestamp, and every index satisfies the inclusive
30% length-delta bound `|len_o - len_m| / max(1, len_o) ≤ 3/10`; an index-set
mismatch reports the missing and extra indices, and the timestamp/length
checks report the first offending index in the original's insertion order.
At the boundary, original length 10 with corrected length 13 passes (30%
exactly) while corrected length 14 fails (40%). -/
theorem c4_validator_three_checks (o m : SrtData) :
    ((validate_srt o m).1 = true ↔
      (keySet o = keySet m
       ∧ (∀ k ∈ keyList o, (lookupE o k).time = (lookupE m k).time)
       ∧ (∀ k ∈ keyList o,
            |((lookupE o k).text.length : ℚ) - ((lookupE m k).text.length : ℚ)|
              / max 1 ((lookupE o k).text.length : ℚ) ≤ 3 / 10)))
    ∧ (keySet o ≠ keySet m →
        validate_srt o m =
          (false, .indexMismatch (keySet o \ keySet m) (keySet m \ keySet o)))
    ∧ (∀ k, keySet o = keySet m →
        (keyList o).find? (fun k => (lookupE o k).time ≠ (lookupE m k).time) = some k →
        validate_srt o m = (false, .timeChanged k))
    ∧ (∀ k, keySet o = keySet m →
        (keyList o).find? (fun k => (lookupE o k).time ≠ (lookupE m k).time) = none →
        (keyList o).find?
          (fun k => lenViol (lookupE o k).text.length (lookupE m k).text.length) = some k →
        validate_srt o m =
          (false, .lenChanged k (lookupE o k).text.length (lookupE m k).text.length))
    ∧ lenViol 10 13 = false ∧ lenViol 10 14 = true := by
  refine ⟨?_, ?_, ?_, ?_, by with_unfolding_all decide, by with_unfolding_all decide⟩
  · by_cases hks : keySet o = keySet m
    · rcases hf1 : (keyList o).find?
          (fun k => (lookupE o k).time ≠ (lookupE m k).time) with _ | k1
      · rcases hf2 : (keyList o).find?
            (fun k => lenViol (lookupE o k).text.length (lookupE m k).text.length) with _ | k2
        · simp only [validate_srt, hks, ne_eq, not_true_eq_false, if_false, hf1, hf2]
          constructor
          · intro _
            refine ⟨by simp [hks], ?_, ?_⟩
            · intro k hk
              have := List.find?_eq_none.mp hf1 k hk
              simpa using this
            · intro k hk
              have := List.find?_eq_none.mp hf2 k hk
              exact (lenViol_false_iff _ _).mp (by simpa using this)
          · intro _
            trivial
        · simp only [validate_srt, hks, ne_eq, not_true_eq_false, if_false, hf1, hf2]
          constructor
          · intro h
            cases h
          · rintro ⟨-, -, hlen⟩
            have hmem := List.mem_of_find?_eq_some hf2
            have hvi := List.find?_some hf2
            have := (lenViol_false_iff (lookupE o k2).text.length (lookupE m k2).text.length).mpr
              (hlen k2 hmem)
            rw [this] at hvi
            cases hvi
      · simp only [validate_srt, hks, ne_eq, not_true_eq_false, if_false, hf1]
        constructor
        · intro h
          cases h
        · rintro ⟨-, htime, -⟩
          have hmem := List.mem_of_find?_eq_some hf1
          have hvi := List.find?_some hf1
          rw [htime k1 hmem] at hvi
          simp at hvi
    · simp only [validate_srt, hks, ne_eq, not_false_eq_true, if_true]
      constructor
      · intro h
        simp at h
      · rintro ⟨hc, -, -⟩
        exact hc.elim
  · intro hne
    simp [validate_srt, hne]
  · intro k hks hf1
    simp only [ne_eq, decide_not] at hf1
    simp [validate_srt, hks, hf1]
  · intro k hks hf1 hf2
    simp only [ne_eq, decide_not] at hf1
    simp [validate_srt, hks, hf1, hf2]

theorem c4_witness :
    validate_srt [(1, ⟨"t1", "abcde"⟩), (2, ⟨"t2", "fg"⟩)]
        [(1, ⟨"t1", "abcdX"⟩), (3, ⟨"t2", "fg"⟩)] =
      (false,
        .indexMismatch
          (keySet [(1, ⟨"t1", "abcde"⟩), (2, ⟨"t2", "fg"⟩)]
            \ keySet [(1, ⟨"t1", "abcdX"⟩), (3, ⟨"t2", "fg"⟩)])
          (keySet [(1, ⟨"t1", "abcdX"⟩), (3, ⟨"t2", "fg"⟩)]
            \ keySet [(1, ⟨"t1", "abcde"⟩), (2, ⟨"t2", "fg"⟩)])) :=
  (c4_validator_three_checks _ _).2.1 (by decide)

/-! ## Response application (C6) -/

/-- The raw group-2 text of the last edit line for index `k` (later lines
overwrite earlier ones in the application loop). -/
def lastEditFor (lines : List String) (k : ℕ) : Option String :=
  (((lines.filterMap parseEditLine).filter (fun q => q.1 = k)).getLast?).map Prod.snd

/-- The effect of one batch's response on one entry: a target entry with at
least one parsed edit line receives the stripped text of the last such line;
every other entry — context, unparsed, echoed-back-but-out-of-scope, or
absent from the response — is untouched. -/
def overwriteEntry (lines : List String) (bk : List ℕ) (p : ℕ × CEntry) : ℕ × CEntry :=
  if p.1 ∈ bk then
    match lastEditFor lines p.1 with
    | some raw => (p.1, { p.2 with text := pyStrip raw })
    | none => p
  else p

/-- The indices recorded as processed: parsed edit lines whose index lies in
the batch's target set. -/
def processedSet (lines : List String) (bk : List ℕ) : Finset ℕ :=
  (((lines.filterMap parseEditLine).filter (fun q => decide (q.1 ∈ bk))).map Prod.fst).toFinset

theorem overwriteEntry_fst (lines : List String) (bk : List ℕ) (p : ℕ × CEntry) :
    (overwriteEntry lines bk p).1 = p.1 := by
  by_cases h : p.1 ∈ bk
  · rcases hle : lastEditFor lines p.1 with _ | raw <;> simp [overwriteEntry, h, hle]
  · simp [overwriteEntry, h]

theorem overwriteEntry_time (lines : List String) (bk : List ℕ) (p : ℕ × CEntry) :
    (overwriteEntry lines bk p).2.time = p.2.time := by
  by_cases h : p.1 ∈ bk
  · rcases hle : lastEditFor lines p.1 with _ | raw <;> simp [overwriteEntry, h, hle]
  · simp [overwriteEntry, h]

theorem lastEditFor_append_none (l : List String) (x : String) (k : ℕ)
    (hp : parseEditLine x = none) :
    lastEditFor (l ++ [x]) k = lastEditFor l k := by
  unfold lastEditFor
  rw [List.filterMap_append,
    show List.filterMap parseEditLine [x] = [] by
      rw [List.filterMap_cons, hp, List.filterMap_nil],
    List.append_nil]

theorem lastEditFor_append_ne (l : List String) (x : String) (idx : ℕ) (raw : String)
    (k : ℕ) (hp : parseEditLine x = some (idx, raw)) (hk : k ≠ idx) :
    lastEditFor (l ++ [x]) k = lastEditFor l k := by
  unfold lastEditFor
  rw [List.filterMap_append, List.filter_append,
    show List.filterMap parseEditLine [x] = [(idx, raw)] by
      rw [List.filterMap_cons, hp, List.filterMap_nil],
    show List.filter (fun q => decide (q.1 = k)) [(idx, raw)] = [] by
      have : ¬ idx = k := fun hc => hk hc.symm
      simp [List.filter_cons, this],
    List.append_nil]

theorem lastEditFor_append_self (l : List String) (x : String) (idx : ℕ) (raw : String)
    (hp : parseEditLine x = some (idx, raw)) :
    lastEditFor (l ++ [x]) idx = some raw := by
  unfold lastEditFor
  rw [List.filterMap_append, List.filter_append,
    show List.filterMap parseEditLine [x] = [(idx, raw)] by
      rw [List.filterMap_cons, hp, List.filterMap_nil],
    show List.filter (fun q => decide (q.1 = idx)) [(idx, raw)] = [(idx, raw)] by
      simp [List.filter_cons],
    List.getLast?_concat]
  rfl

theorem processedSet_append_none (l : List String) (x : String)
    (hp : parseEditLine x = none) (bk : List ℕ) :
    processedSet (l ++ [x]) bk = processedSet l bk := by
  unfold processedSet
  rw [List.filterMap_append,
    show List.filterMap parseEditLine [x] = [] by
      rw [List.filterMap_cons, hp, List.filterMap_nil],
    List.append_nil]

theorem processedSet_append_notin (l : List String) (x : String) (idx : ℕ) (raw : String)
    (hp : parseEditLine x = some (idx, raw)) (bk : List ℕ) (hbk : idx ∉ bk) :
    processedSet (l ++ [x]) bk = processedSet l bk := by
  unfold processedSet
  rw [List.filterMap_append, List.filter_append,
    show List.filterMap parseEditLine [x] = [(idx, raw)] by
      rw [List.filterMap_cons, hp, List.filterMap_nil],
    show List.filter (fun q => decide (q.1 ∈ bk)) [(idx, raw)] = [] by
      simp [List.filter_cons, hbk],
    List.append_nil]

theorem processedSet_append_in (l : List String) (x : String) (idx : ℕ) (raw : String)
    (hp : parseEditLine x = some (idx, raw)) (bk : List ℕ) (hbk : idx ∈ bk) :
    processedSet (l ++ [x]) bk = insert idx (processedSet l bk) := by
  unfold processedSet
  rw [List.filterMap_append, List.filter_append,
    show List.filterMap parseEditLine [x] = [(idx, raw)] by
      rw [List.filterMap_cons, hp, List.filterMap_nil],
    show List.filter (fun q => decide (q.1 ∈ bk)) [(idx, raw)] = [(idx, raw)] by
      simp [List.filter_cons, hbk],
    List.map_append, List.toFinset_append]
  ext a
  simp [or_comm]

/-- The application fold, characterized in closed form: the final working
copy is a per-entry overwrite by the last in-scope edit line, and the
processed set collects exactly the parsed in-scope indices. -/
theorem applyLines_eq (lines : List String) (bk : List ℕ) (d : SrtData) (s : Finset ℕ) :
    lines.foldl
      (fun acc line =>
        match parseEditLine line with
        | some (idx, raw) =>
            if idx ∈ bk then (setText acc.1 idx (pyStrip raw), insert idx acc.2)
            else acc
        | none => acc)
      (d, s) = (d.map (overwriteEntry lines bk), s ∪ processedSet lines bk) := by
  induction lines using List.reverseRecOn generalizing d s with
  | nil =>
      have h1 : d.map (overwriteEntry [] bk) = d := by
        have hpt : ∀ p ∈ d, overwriteEntry [] bk p = p := by
          intro p _
          by_cases h : p.1 ∈ bk <;> simp [overwriteEntry, lastEditFor, h]
        rw [List.map_congr_left hpt]
        exact List.map_id d
      have h2 : s ∪ processedSet [] bk = s := by
        simp [processedSet]
      simp [h1, h2]
  | append_singleton l x ih =>
      rw [List.foldl_append, ih d s]
      rcases hp : parseEditLine x with _ | ⟨idx, raw⟩
      · simp only [List.foldl_cons, List.foldl_nil, hp]
        have hov : ∀ p ∈ d, overwriteEntry (l ++ [x]) bk p = overwriteEntry l bk p := by
          intro p _
          by_cases h : p.1 ∈ bk <;>
            simp [overwriteEntry, h, lastEditFor_append_none l x p.1 hp]
        rw [List.map_congr_left hov, processedSet_append_none l x hp]
      · by_cases hbk : idx ∈ bk
        · simp only [List.foldl_cons, List.foldl_nil, hp, hbk, if_true]
          have hdata : setText (d.map (overwriteEntry l bk)) idx (pyStrip raw) =
              d.map (overwriteEntry (l ++ [x]) bk) := by
            rw [setText, List.map_map]
            refine List.map_congr_left (fun p _ => ?_)
            have hfst := overwriteEntry_fst l bk p
            show (if (overwriteEntry l bk p).1 = idx then
                ((overwriteEntry l bk p).1,
                  { (overwriteEntry l bk p).2 with text := pyStrip raw })
              else overwriteEntry l bk p) = overwriteEntry (l ++ [x]) bk p
            by_cases hpk : p.1 = idx
            · have hbk' : p.1 ∈ bk := by rw [hpk]; exact hbk
              have hlast : lastEditFor (l ++ [x]) p.1 = some raw := by
                rw [hpk]; exact lastEditFor_append_self l x idx raw hp
              rw [hfst, if_pos hpk]
              rcases hle : lastEditFor l p.1 with _ | r <;>
                simp [overwriteEntry, hbk', hlast, hle]
            · rw [hfst, if_neg hpk]
              by_cases h : p.1 ∈ bk
              · simp [overwriteEntry, h, lastEditFor_append_ne l x idx raw p.1 hp hpk]
              · simp [overwriteEntry, h]
          have hproc : insert idx (s ∪ processedSet l bk) =
              s ∪ processedSet (l ++ [x]) bk := by
            rw [processedSet_append_in l x idx raw hp bk hbk, Finset.union_insert]
          rw [hdata, hproc]
        · simp only [List.foldl_cons, List.foldl_nil, hp, hbk, if_false]
          have hov : ∀ p ∈ d, overwriteEntry (l ++ [x]) bk p = overwriteEntry l bk p := by
            intro p _
            by_cases h : p.1 ∈ bk
            · have hne : p.1 ≠ idx := fun hc => hbk (hc ▸ h)
              simp [overwriteEntry, h, lastEditFor_append_ne l x idx raw p.1 hp hne]
            · simp [overwriteEntry, h]
          rw [List.map_congr_left hov, processedSet_append_notin l x idx raw hp bk hbk]

theorem lastEditFor_ne_none_iff (lines : List String) (k : ℕ) :
    lastEditFor lines k ≠ none ↔ ∃ raw, (k, raw) ∈ lines.filterMap parseEditLine := by
  unfold lastEditFor
  rw [ne_eq, Option.map_eq_none', List.getLast?_eq_none_iff]
  constructor
  · intro h
    rw [List.eq_nil_iff_forall_not_mem] at h
    push_neg at h
    obtain ⟨q, hq⟩ := h
    obtain ⟨hmem, hfilt⟩ := List.mem_filter.mp hq
    have hk : q.1 = k := by simpa using hfilt
    exact ⟨q.2, by rw [← hk]; exact hmem⟩
  · rintro ⟨raw, hmem⟩ h
    have hin : (k, raw) ∈ (lines.filterMap parseEditLine).filter (fun q => q.1 = k) :=
      List.mem_filter.mpr ⟨hmem, by simp⟩
    rw [h] at hin
    cases hin

theorem mem_processedSet (lines : List String) (bk : List ℕ) (k : ℕ) :
    k ∈ processedSet lines bk ↔
      k ∈ bk ∧ ∃ raw, (k, raw) ∈ lines.filterMap parseEditLine := by
  unfold processedSet
  rw [List.mem_toFinset, List.mem_map]
  constructor
  · rintro ⟨q, hq, rfl⟩
    obtain ⟨hmem, hfilt⟩ := List.mem_filter.mp hq
    exact ⟨by simpa using hfilt, q.2, hmem⟩
  · rintro ⟨hbk, raw, hmem⟩
    exact ⟨(k, raw), List.mem_filter.mpr ⟨hmem, by simpa using hbk⟩, rfl⟩

/-- **C6** (confirmed).  Applying one batch's AI response overwrites exactly
the entries whose index occurs in a parsed `編號{index}:{text}` line *and*
lies in the batch's target set — the text becoming the stripped payload of
the last such line — and nothing else: lines with out-of-scope indices are
ignored even if echoed back, target indices absent from the response keep
their pre-batch text, no timestamp changes, and the processed set (whose
complement within the targets is warned about, not fatal) holds exactly the
in-scope parsed indices. -/
theorem c6_response_application (resp : String) (bk : List ℕ) (d : SrtData) :
    applyLines (responseLines resp) bk d =
      (d.map (overwriteEntry (responseLines resp) bk), processedSet (responseLines resp) bk)
    ∧ keyTimes (applyLines (responseLines resp) bk d).1 = keyTimes d
    ∧ (∀ k ∈ bk, (k ∈ (applyLines (responseLines resp) bk d).2 ↔
        lastEditFor (responseLines resp) k ≠ none))
    ∧ (∀ k, k ∉ bk → k ∉ (applyLines (responseLines resp) bk d).2) := by
  have h0 : applyLines (responseLines resp) bk d =
      (d.map (overwriteEntry (responseLines resp) bk),
       ∅ ∪ processedSet (responseLines resp) bk) :=
    applyLines_eq (responseLines resp) bk d ∅
  rw [Finset.empty_union] at h0
  refine ⟨h0, keyTimes_applyLines' _ _ _, ?_, ?_⟩
  · intro k hk
    rw [h0]
    show k ∈ processedSet (responseLines resp) bk ↔ _
    rw [mem_processedSet, lastEditFor_ne_none_iff]
    simp [hk]
  · intro k hk
    rw [h0]
    show k ∉ processedSet (responseLines resp) bk
    rw [mem_processedSet]
    rintro ⟨hc, -⟩
    exact hk hc

theorem c6_witness :
    1 ∈ (applyLines (responseLines "編號1:hello") [1, 2] demoTrack).2 ↔
      lastEditFor (responseLines "編號1:hello") 1 ≠ none :=
  (c6_response_application "編號1:hello" [1, 2] demoTrack).2.2.1 1 (by decide)

/-- **C9** (confirmed).  Structure preservation: every batch application
leaves the working dict's key list and every entry's timestamp untouched
(only `text` fields are assigned), and a successful run returns the entries
re-materialized by `sorted(...)`, i.e. a permutation of the parsed input's
(index, time) pairs arranged in ascending index order. -/
theorem c9_structure_preserved :
    (∀ (lines : List String) (bk : List ℕ) (dd : SrtData),
        keyTimes (applyLines lines bk dd).1 = keyTimes dd)
    ∧ (∀ (ai : ℕ → ℕ → Except String String) (t : String) (orig : SrtData) (bs : ℤ)
         (track : SrtData) (reports : List String),
         (correct_subtitles ai t orig bs).result = .success track reports →
           (keyTimes track).Perm (keyTimes orig)
           ∧ List.Pairwise (fun a b => a.1 ≤ b.1) track) := by
  constructor
  · exact fun lines bk dd => keyTimes_applyLines' lines bk dd
  · intro ai t orig bs track reports h
    revert h
    unfold correct_subtitles
    by_cases hz : bs - 2 = 0
    · intro h
      simp [hz] at h
    · simp only [if_neg hz]
      rcases hrb : runBatches ai (keyList orig) bs.toNat (bs - 2).toNat
          (if bs - 2 < 0 then [] else rangeStarts (keyList orig).length (bs - 2).toNat)
          { data := orig, reports := [], sleeps := [], warns := [], calls := 0 }
        with ⟨stF, err⟩
      rcases err with _ | msg'
      · rw [validate_srt_self_passed stF.data]
        intro h
        injection h with htrack hrep
        subst htrack
        have hperm : (sortTrack stF.data).Perm stF.data :=
          List.mergeSort_perm stF.data (fun a b => Nat.ble a.1 b.1)
        have hkt : keyTimes stF.data = keyTimes orig := by
          have := keyTimes_runBatches ai (keyList orig) bs.toNat (bs - 2).toNat
            (if bs - 2 < 0 then [] else rangeStarts (keyList orig).length (bs - 2).toNat)
            { data := orig, reports := [], sleeps := [], warns := [], calls := 0 }
          rw [hrb] at this
          exact this
        constructor
        · exact (hperm.map _).trans (hkt ▸ List.Perm.refl _)
        · have hsorted := @List.sorted_mergeSort (ℕ × CEntry)
            (fun a b => Nat.ble a.1 b.1)
            (fun a b c hab hbc => by
              simp only [Nat.ble_eq] at hab hbc ⊢
              omega)
            (fun a b => by
              simp only [Bool.or_eq_true, Nat.ble_eq]
              omega)
            stF.data
          exact hsorted.imp (fun hab => by simpa [Nat.ble_eq] using hab)
      · intro h
        cases h

theorem c9_witness :
    (keyTimes demoTrack).Perm (keyTimes demoTrack)
    ∧ List.Pairwise (fun (a b : ℕ × CEntry) => a.1 ≤ b.1) demoTrack :=
  (c9_structure_preserved).2 aiEmpty "t" demoTrack 10 demoTrack []
    (by with_unfolding_all decide)

/-- **C8** (confirmed).  The proportional corrector is a no-op (not an
error) on empty content, zero duration, or unparseable content; otherwise it
computes `factor = audio_duration*1000 / time_to_ms(last.end_time)` and
rescales every entry's start and end by that factor with truncation to
integer milliseconds, re-encoding via `ms_to_time` and re-serializing.  For
a recognizer end time of 8000 ms and a true duration of 10.0 s the factor is
exactly 1.25, and an entry spanning 1000–2000 ms becomes 1250–2500 ms. -/
theorem c8_proportional_scaling :
    (∀ d : ℚ, correct_timestamps_proportionally "" d = .ok "")
    ∧ (∀ c : String, correct_timestamps_proportionally c 0 = .ok c)
    ∧ (∀ (c : String) (d : ℚ), parse_srt c = [] →
        correct_timestamps_proportionally c d = .ok c)
    ∧ (∀ (c : String) (d : ℚ) (e : GenEntry) (z : ℤ),
        d ≠ 0 → (parse_srt c).getLast? = some e →
        time_to_ms e.end_time = some z → ¬ z = 0 →
        correct_timestamps_proportionally c d =
          ((parse_srt c).mapM (scaleEntry (pyDiv (pyMul d 1000) (z : ℚ)))).map buildSrt)
    ∧ pyDiv (pyMul 10 1000) (((8000 : ℤ) : ℚ)) = 5 / 4
    ∧ scaleEntry (5 / 4)
        { index := 1, start_time := "00:00:01,000", end_time := "00:00:02,000", text := "foo" } =
        .ok { index := 1, start_time := "00:00:01,250", end_time := "00:00:02,500", text := "foo" }
    ∧ correct_timestamps_proportionally
        "1\n00:00:01,000 --> 00:00:02,000\nfoo\n\n2\n00:00:07,000 --> 00:00:08,000\nbar\n\n" 10 =
        .ok "1\n00:00:01,250 --> 00:00:02,500\nfoo\n\n2\n00:00:08,750 --> 00:00:10,000\nbar\n\n" := by
  refine ⟨?_, ?_, ?_, ?_, by with_unfolding_all decide, by with_unfolding_all decide,
    by with_unfolding_all decide⟩
  · intro d
    simp [correct_timestamps_proportionally]
  · intro c
    simp [correct_timestamps_proportionally]
  · intro c d hparse
    by_cases hc : c = ""
    · subst hc
      simp [correct_timestamps_proportionally]
    · by_cases hd : d = 0
      · subst hd
        simp [correct_timestamps_proportionally]
      · simp [correct_timestamps_proportionally, hc, hd, hparse]
  · intro c d e z hd hlast hz hz0
    have hc : ¬ c = "" := by
      intro hceq
      subst hceq
      rw [show parse_srt "" = [] from rfl] at hlast
      cases hlast
    unfold correct_timestamps_proportionally
    rw [if_neg (by simp [hc, hd])]
    simp only [hlast, hz, orValueError]
    have hred : (do
        let subEnd ← (Except.ok z : Except PyErr ℤ)
        if subEnd = 0 then (Except.error PyErr.zeroDivisionError : Except PyErr String)
        else do
          let entries ← (parse_srt c).mapM (scaleEntry (pyDiv (pyMul d 1000) (subEnd : ℚ)))
          pure (buildSrt entries)) =
      (if z = 0 then (Except.error PyErr.zeroDivisionError : Except PyErr String)
       else do
          let entries ← (parse_srt c).mapM (scaleEntry (pyDiv (pyMul d 1000) (z : ℚ)))
          pure (buildSrt entries)) := rfl
    rw [hred, if_neg hz0]
    rcases hm : (parse_srt c).mapM
        (scaleEntry (pyDiv (pyMul d 1000) (z : ℚ))) with er | v
    · rw [show (do
          let entries ← (Except.error er : Except PyErr (List GenEntry))
          pure (buildSrt entries)) = (Except.error er : Except PyErr String) from rfl]
      rfl
    · rw [show (do
          let entries ← (Except.ok v : Except PyErr (List GenEntry))
          pure (buildSrt entries)) = (Except.ok (buildSrt v) : Except PyErr String) from rfl]
      rfl

theorem c8_witness : correct_timestamps_proportionally "junk" 10 = .ok "junk" :=
  (c8_proportional_scaling).2.2.1 "junk" 10 (by with_unfolding_all decide)

end VSG
